import Mathlib

set_option maxRecDepth 8000

/-!
Verification of the i18n translation validator (`scripts/validate.js`) and
the i18n auto-sync script (`scripts/sync-i18n.js`).

The two scripts operate on a source mapping (`en.json`, key → string) and
per-language candidate files.  File I/O, path handling and console output are
caller-side plumbing; the core logic is embedded below:

* `validate` embeds the `validate(file, enContent)` function: it receives the
  file's basename (the source computes `path.basename(file)`) and the outcome
  of `JSON.parse(fs.readFileSync(file))` as an `Except` (the source's
  try/catch).
* `syncLanguage` embeds the `syncLanguage(lang, enContent)` function on the
  already-read candidate content; `syncRun` adds the read-or-start-fresh step
  (absent file / unparseable file ⇒ empty object).

JS numbers are modelled as exact rationals (every number computed here is a
small count, a division of counts, or their rounding, where the two agree).
JS string `.length` (UTF-16 code units) is modelled by `utf16Len`.
-/

namespace I18n

/-- JSON values as produced by `JSON.parse`. -/
inductive Json where
  | null
  | bool (b : Bool)
  | num (q : ℚ)
  | str (s : String)
  | arr (elems : List Json)
  | obj (fields : List (String × Json))

/-! ### Character helpers -/

/-- ASCII lower-casing of a single character.  Models the effect of the
regex `/i` flag on the ASCII-only patterns used in `BLOCKED_PATTERNS`
(without the `u` flag, canonicalisation never folds a non-ASCII character
onto an ASCII one, so ASCII folding is exact for these patterns). -/
def asciiLower (c : Char) : Char :=
  if 65 ≤ c.toNat && c.toNat ≤ 90 then Char.ofNat (c.toNat + 32) else c

/-- Case-insensitive character comparison (pattern char vs input char). -/
def charIC (p c : Char) : Bool := asciiLower p == asciiLower c

/-- The JS regex `\s` class (WhiteSpace ∪ LineTerminator per ECMA-262):
TAB LF VT FF CR SP NBSP OGHAM-SP U+2000–U+200A LS PS NNBSP MMSP IDSP ZWNBSP. -/
def jsWhite (c : Char) : Bool :=
  c.toNat == 9 || c.toNat == 10 || c.toNat == 11 || c.toNat == 12 ||
  c.toNat == 13 || c.toNat == 32 || c.toNat == 0xa0 || c.toNat == 0x1680 ||
  (decide (0x2000 ≤ c.toNat) && decide (c.toNat ≤ 0x200a)) ||
  c.toNat == 0x2028 || c.toNat == 0x2029 || c.toNat == 0x202f ||
  c.toNat == 0x205f || c.toNat == 0x3000 || c.toNat == 0xfeff

/-- ASCII letter (the class `[a-z]` under the `/i` flag). -/
def isAsciiLetter (c : Char) : Bool :=
  (decide (97 ≤ c.toNat) && decide (c.toNat ≤ 122)) ||
  (decide (65 ≤ c.toNat) && decide (c.toNat ≤ 90))

/-- The class `[0-9a-f]` under the `/i` flag. -/
def isHexIC (c : Char) : Bool :=
  (decide (48 ≤ c.toNat) && decide (c.toNat ≤ 57)) ||
  (decide (97 ≤ (asciiLower c).toNat) && decide ((asciiLower c).toNat ≤ 102))

/-! ### String helpers -/

/-- UTF-16 code units of one character (JS strings are code-unit sequences). -/
def charUnits (c : Char) : List Nat :=
  if decide (c.toNat < 0x10000) then [c.toNat]
  else [0xd800 + (c.toNat - 0x10000) / 0x400, 0xdc00 + (c.toNat - 0x10000) % 0x400]

/-- UTF-16 code units of a string. -/
def codeUnits (s : String) : List Nat := (s.data.map charUnits).flatten

/-- JS `string.length` (number of UTF-16 code units). -/
def utf16Len (s : String) : Nat := (codeUnits s).length

/-- Exact (case-sensitive) pattern match at the head of a list. -/
def litAt : List Char → List Char → Bool
  | [], _ => true
  | _ :: _, [] => false
  | p :: ps, c :: cs => p == c && litAt ps cs

/-- Replace the first occurrence of `pat` by the empty string: models JS
`String.prototype.replace` with a string pattern, which replaces only the
first occurrence (used for `label.replace('.json', '')`). -/
def replFirst (pat : List Char) : List Char → List Char
  | [] => []
  | c :: cs => if litAt pat (c :: cs) then (c :: cs).drop pat.length else c :: replFirst pat cs

/-- JS `label.replace(pat, '')` for a plain-string `pat`. -/
def jsReplaceFirst (s pat : String) : String := String.mk (replFirst pat.data s.data)

/-- JS `String.prototype.trim` (strips WhiteSpace ∪ LineTerminator, the same
set as `jsWhite`). -/
def jsTrim (s : String) : String :=
  String.mk (((s.data.dropWhile jsWhite).reverse.dropWhile jsWhite).reverse)

/-- Insert into a ≤-sorted list of strings. -/
def insertSorted (a : String) : List String → List String
  | [] => [a]
  | b :: bs => if a ≤ b then a :: b :: bs else b :: insertSorted a bs

/-- Models JS `Array.prototype.sort()` on an array of (distinct) keys: the
sorted rearrangement under lexicographic string order. -/
def jsSortStrings : List String → List String
  | [] => []
  | a :: rest => insertSorted a (jsSortStrings rest)

/-! ### The validator's helpers (`extractPlaceholders`, `hasControlChars`) -/

/-- One attempt of the regex `\{\{[^}]+\}\}` right after an opening `{\x7b`:
greedily take the maximal run of non-`\x7d` characters (backtracking cannot
help, since a shorter run would leave a non-`\x7d` character where `\x7d` is
required), then demand `\x7d\x7d`.  Returns the placeholder body and the rest. -/
def phGrab (l : List Char) : Option (List Char × List Char) :=
  let content := l.takeWhile (fun c => !(c == '}'))
  if content.isEmpty then none
  else
    match l.drop content.length with
    | '}' :: '}' :: rest => some (content, rest)
    | _ => none

/-- Left-to-right, non-overlapping global scan for `\{\{[^}]+\}\}` (the body
of `str.match(/\{\{[^}]+\}\}/g)`).  The fuel argument only bounds recursion
and is always called with at least the list length. -/
def phScan : Nat → List Char → List String
  | 0, _ => []
  | _ + 1, [] => []
  | fuel + 1, c :: cs =>
    if c == '{' then
      match cs with
      | c2 :: cs2 =>
        if c2 == '{' then
          match phGrab cs2 with
          | some p => String.mk ('{' :: '{' :: (p.1 ++ ['}', '}'])) :: phScan fuel p.2
          | none => phScan fuel cs
        else phScan fuel cs
      | [] => []
    else phScan fuel cs

/-- `extractPlaceholders(str)`: `(str.match(/\{\{[^}]+\}\}/g) ?? []).sort()`. -/
def extractPlaceholders (s : String) : List String :=
  jsSortStrings (phScan s.data.length s.data)

/-- `hasControlChars(str)`: `/[\x00-\x08\x0b\x0c\x0e-\x1f\x7f]/.test(str)`. -/
def hasControlChars (s : String) : Bool :=
  s.data.any fun c =>
    decide (c.toNat ≤ 8) || c.toNat == 11 || c.toNat == 12 ||
    (decide (14 ≤ c.toNat) && decide (c.toNat ≤ 31)) || c.toNat == 127

/-! ### The blocked-content detectors (`BLOCKED_PATTERNS`)

Each regex is compiled to a hand-rolled matcher on the character list.
`anySuffix f l` is "the pattern matches at some position of `l`", i.e.
`re.test`.  All patterns involved are ASCII, so matching per character
(rather than per UTF-16 code unit) is equivalent: a surrogate code unit can
never match an ASCII pattern character, `[^>]`/`[^,]` accept both halves of
a surrogate pair exactly when they accept the character. -/

/-- Does `f` hold of some suffix, i.e. does the regex match at some start
position? -/
def anySuffix (f : List Char → Bool) : List Char → Bool
  | [] => f []
  | c :: cs => f (c :: cs) || anySuffix f cs

/-- Case-insensitive literal match at the head (a literal regex under `/i`). -/
def startsIC : List Char → List Char → Bool
  | [], _ => true
  | _ :: _, [] => false
  | p :: ps, c :: cs => charIC p c && startsIC ps cs

/-- Consume a case-insensitive literal, returning the rest. -/
def dropIC : List Char → List Char → Option (List Char)
  | [], l => some l
  | _ :: _, [] => none
  | p :: ps, c :: cs => if charIC p c then dropIC ps cs else none

/-- Skip the maximal run of `\s` characters (greedy `\s*`; backtracking is
moot because the character required next is never itself in `\s`). -/
def skipWs : List Char → List Char
  | [] => []
  | c :: cs => if jsWhite c then skipWs cs else c :: cs

/-- `/javascript\s*:/i` at this position. -/
def jsUriAt (l : List Char) : Bool :=
  match dropIC ("javascript".data) l with
  | some r =>
    match skipWs r with
    | c :: _ => c == ':'
    | [] => false
  | none => false

/-- Maximal run of ASCII letters (greedy `[a-z]+` under `/i`). -/
def letterRun : List Char → Nat × List Char
  | [] => (0, [])
  | c :: cs =>
    if isAsciiLetter c then ((letterRun cs).1 + 1, (letterRun cs).2)
    else (0, c :: cs)

/-- `/on[a-z]{2,}\s*=/i` at this position.  Only the maximal letter run can
succeed: after a shorter run the next character is a letter, which is neither
`\s` nor `=`. -/
def eventHandlerAt (l : List Char) : Bool :=
  match dropIC ("on".data) l with
  | some r =>
    decide (2 ≤ (letterRun r).1) &&
      (match skipWs (letterRun r).2 with
       | c :: _ => c == '='
       | [] => false)
  | none => false

/-- The `[^>]+onerror` part of `/<img[^>]+onerror/i`: some non-empty gap of
non-`>` characters followed by `onerror` (existence over all backtracking
choices of the greedy `[^>]+`). -/
def imgTail : List Char → Bool
  | [] => false
  | c :: cs => !(c == '>') && (startsIC ("onerror".data) cs || imgTail cs)

/-- `/<img[^>]+onerror/i` at this position. -/
def imgAt (l : List Char) : Bool :=
  match dropIC ("<img".data) l with
  | some r => imgTail r
  | none => false

/-- The `[^,]*base64` part of `/data:[^,]*base64/i`: a possibly empty gap of
non-`,` characters followed by `base64`. -/
def dataTail : List Char → Bool
  | [] => false
  | c :: cs => startsIC ("base64".data) (c :: cs) || (!(c == ',') && dataTail cs)

/-- `/data:[^,]*base64/i` at this position. -/
def dataAt (l : List Char) : Bool :=
  match dropIC ("data:".data) l with
  | some r => dataTail r
  | none => false

/-- After at least one hex digit: keep consuming the greedy `[0-9a-f]+`; the
first non-hex character must be `;` (a shorter run would end on a hex
character, which is not `;`). -/
def restHex : List Char → Bool
  | [] => false
  | c :: cs => if isHexIC c then restHex cs else c == ';'

/-- `[0-9a-f]+;` under `/i`. -/
def hexThenSemi : List Char → Bool
  | [] => false
  | c :: cs => isHexIC c && restHex cs

/-- `/&#x?[0-9a-f]+;/i` at this position.  The optional `x?` gives two
alternatives; `x` is not a hex digit, so they are tried independently. -/
def entityAt : List Char → Bool
  | a :: b2 :: r =>
    a == '&' && b2 == '#' &&
    ((match r with
      | c :: r2 => charIC 'x' c && hexThenSemi r2
      | [] => false) || hexThenSemi r)
  | _ => false

/-- The right-to-left override character U+202E. -/
def rtlChar : Char := Char.ofNat 0x202e

/-- A blocked-content detector: the compiled regex test plus its label. -/
structure Detector where
  test : String → Bool
  label : String

/-- `BLOCKED_PATTERNS`, in source order. -/
def BLOCKED_PATTERNS : List Detector := [
  ⟨fun s => anySuffix (startsIC ("<script".data)) s.data, "script tag"⟩,
  ⟨fun s => anySuffix (startsIC ("</script".data)) s.data, "closing script tag"⟩,
  ⟨fun s => anySuffix jsUriAt s.data, "javascript: URI"⟩,
  ⟨fun s => anySuffix eventHandlerAt s.data, "inline event handler (onX=)"⟩,
  ⟨fun s => anySuffix (startsIC ("<iframe".data)) s.data, "iframe tag"⟩,
  ⟨fun s => anySuffix imgAt s.data, "img onerror injection"⟩,
  ⟨fun s => anySuffix dataAt s.data, "base64 data URI"⟩,
  ⟨fun s => anySuffix entityAt s.data, "HTML numeric entity (potential obfuscation)"⟩,
  ⟨fun s => s.data.any (fun c => c == rtlChar), "right-to-left override character (U+202E)"⟩]

/-! ### Validator messages and configuration -/

def MAX_LENGTH : Nat := 2000

/-- `MAX_LENGTH_RATIO` in the source: the translation may be at most 10× the
English length before a warning. -/
def lengthRatioCap : Nat := 10

def enJsonErrMsg : String := "en.json is the source of truth — do not submit it as a translation."

def reportErrMsg : String := "report.json is auto-generated — do not submit it in a PR."

def langCodeMsg (label : String) : String :=
  "File name \"" ++ label ++ "\" is not a valid language code (expected e.g. \"de.json\")."

def invalidJsonMsg (m : String) : String := "Invalid JSON: " ++ m

def rootMsg : String := "Root value must be a JSON object."

def missingKeyMsg (k : String) : String := "Missing key: \"" ++ k ++ "\""

def unknownKeyMsg (k : String) : String := "Unknown key not in en.json: \"" ++ k ++ "\""

def typeErrMsg (k t : String) : String := "[" ++ k ++ "] Value must be a string, got " ++ t ++ "."

def emptyWarnMsg (k : String) : String := "[" ++ k ++ "] Value is empty (English is not)."

def blockedMsg (k lab : String) : String := "[" ++ k ++ "] Contains blocked content: " ++ lab ++ "."

def ctrlMsg (k : String) : String := "[" ++ k ++ "] Contains non-printable control characters."

/-- JS `array.join(', ')`. -/
def joinComma : List String → String
  | [] => ""
  | [x] => x
  | x :: y :: rest => x ++ ", " ++ joinComma (y :: rest)

def missingPhMsg (k : String) (ps : List String) : String :=
  "[" ++ k ++ "] Missing template placeholder(s): " ++ joinComma ps

def extraPhMsg (k : String) (ps : List String) : String :=
  "[" ++ k ++ "] Extra template placeholder(s) not in English: " ++ joinComma ps

def maxLenMsg (k : String) (n : Nat) : String :=
  "[" ++ k ++ "] Value exceeds hard cap of " ++ toString MAX_LENGTH ++
    " characters (got " ++ toString n ++ ")."

def ratioWarnMsg (k : String) (r : ℤ) : String :=
  "[" ++ k ++ "] Value is " ++ toString r ++ "× longer than English — looks suspicious."

/-- JS `typeof` on a parsed JSON value. -/
def jsTypeof : Json → String
  | .null => "object"
  | .bool _ => "boolean"
  | .num _ => "number"
  | .str _ => "string"
  | .arr _ => "object"
  | .obj _ => "object"

/-- The language-code shape check `/^[a-z]{2,5}$/`. -/
def validLangCode (s : String) : Bool :=
  decide (2 ≤ s.data.length) && decide (s.data.length ≤ 5) &&
  s.data.all fun c => decide (97 ≤ c.toNat) && decide (c.toNat ≤ 122)

/-! ### The validator -/

/-- Check 9: placeholder consistency for one key (errors, in source order). -/
def phErrs (k enV s : String) : List String :=
  let enPh := extractPlaceholders enV
  let sPh := extractPlaceholders s
  let missing := enPh.filter fun p => !(sPh.contains p)
  let extra := sPh.filter fun p => !(enPh.contains p)
  (if missing.isEmpty then [] else [missingPhMsg k missing]) ++
  (if extra.isEmpty then [] else [extraPhMsg k extra])

/-- Check 10 (the blocking half): hard length cap. -/
def lenErrs (k : String) (s : String) : List String :=
  if decide (MAX_LENGTH < utf16Len s) then [maxLenMsg k (utf16Len s)] else []

/-- The per-value checks 5–10 of `validate`, error messages only, for one
`[key, value]` entry.  Keys not in `enKeys` were already flagged as unknown
and are skipped (`continue`); a non-string value yields only the type error
(`continue`). -/
def perKeyErrs (en : List (String × String)) (enKeys : List String)
    (k : String) (v : Json) : List String :=
  if !(enKeys.contains k) then []
  else
    match v with
    | .str s =>
      ((BLOCKED_PATTERNS.filter fun d => d.test s).map fun d => blockedMsg k d.label) ++
      (if hasControlChars s then [ctrlMsg k] else []) ++
      phErrs k ((List.lookup k en).getD "") s ++
      lenErrs k s
    | _ => [typeErrMsg k (jsTypeof v)]

/-- The per-value checks of `validate`, warning messages only (check 5b
emptiness, check 10's ratio half — the latter only when the hard cap did not
already fire and the English value is non-empty). -/
def perKeyWarns (en : List (String × String)) (enKeys : List String)
    (k : String) (v : Json) : List String :=
  if !(enKeys.contains k) then []
  else
    match v with
    | .str s =>
      let enV := (List.lookup k en).getD ""
      (if jsTrim s == "" && !(jsTrim enV == "") then [emptyWarnMsg k] else []) ++
      (if !(decide (MAX_LENGTH < utf16Len s)) && decide (0 < utf16Len enV) &&
          decide (utf16Len enV * lengthRatioCap < utf16Len s)
       then [ratioWarnMsg k (round ((utf16Len s : ℚ) / (utf16Len enV : ℚ)))] else [])
    | _ => []

/-- A validation result: the `errors` and `warnings` arrays. -/
structure VResult where
  errors : List String
  warnings : List String

/-- The core of `validate(file, enContent)`.  `label` is `path.basename(file)`;
`cand` is the outcome of `JSON.parse(fs.readFileSync(file))` (the source's
try/catch around it is the `Except`).  Errors are pushed in source order:
identity guard (early return), language-code shape, parse failure (early
return), root-shape (early return), missing keys, unknown keys, then the
per-entry checks in `Object.entries` order. -/
def validate (label : String) (en : List (String × String))
    (cand : Except String Json) : VResult :=
  if label == "en.json" then ⟨[enJsonErrMsg], []⟩
  else if label == "report.json" then ⟨[reportErrMsg], []⟩
  else
    let langErrs := if validLangCode (jsReplaceFirst label (".json")) then [] else [langCodeMsg label]
    match cand with
    | .error m => ⟨langErrs ++ [invalidJsonMsg m], []⟩
    | .ok (.obj fields) =>
      let enKeys := en.map Prod.fst
      let langKeys := fields.map Prod.fst
      ⟨langErrs ++
        ((enKeys.filter fun k => !(langKeys.contains k)).map missingKeyMsg) ++
        ((langKeys.filter fun k => !(enKeys.contains k)).map unknownKeyMsg) ++
        (fields.map fun p => perKeyErrs en enKeys p.1 p.2).flatten,
       (fields.map fun p => perKeyWarns en enKeys p.1 p.2).flatten⟩
    | .ok _ => ⟨langErrs ++ [rootMsg], []⟩

/-! ### The synchronizer -/

/-- JS `Object.hasOwn(x, k)` for the non-throwing receivers: own property
names of a parsed-JSON receiver are the object's keys; an array's indices and
`"length"`; a (boxed) string's code-unit indices and `"length"`; nothing for
numbers and booleans. -/
def hasOwnB : Json → String → Bool
  | .obj fields, k => (fields.map Prod.fst).contains k
  | .arr elems, k => k == "length" || (List.range elems.length).any fun i => toString i == k
  | .str s, k => k == "length" || (List.range (utf16Len s)).any fun i => toString i == k
  | _, _ => false

/-- JS `Object.hasOwn(x, k)`: `ToObject(null)` throws a `TypeError`, modelled
as `none`. -/
def hasOwnJson : Json → String → Option Bool
  | .null, _ => none
  | j, k => some (hasOwnB j k)

/-- JS member access `x[k]`, used by the sync loop only when
`Object.hasOwn(x, k)` returned `true`.  For a boxed string, `x[i]` is the
one-code-unit string at index `i`; a lone surrogate half (only reachable when
the candidate file parses to a bare string containing astral characters and
a source key is a matching numeric index) is not a Unicode string and is
mapped to NUL by `Char.ofNat`; no property proved below looks at that value. -/
def getJson : Json → String → Json
  | .obj fields, k => (List.lookup k fields).getD .null
  | .arr elems, k =>
    if k == "length" then .num (elems.length : ℚ)
    else
      match (List.range elems.length).find? (fun i => toString i == k) with
      | some i => elems.getD i .null
      | none => .null
  | .str s, k =>
    if k == "length" then .num (utf16Len s : ℚ)
    else
      match (List.range (utf16Len s)).find? (fun i => toString i == k) with
      | some i => .str (String.mk [Char.ofNat ((codeUnits s).getD i 0)])
      | none => .null
  | _, _ => .null

/-- JS strict equality `v === s` where `s` is a string: true exactly for an
identical string value (`===` never coerces; objects compare by reference and
are thus never equal to a string). -/
def jsEqStr : Json → String → Bool
  | .str t, s => t == s
  | _, _ => false

/-- `Object.keys(enContent).sort()`. -/
def sortedKeys (en : List (String × String)) : List String :=
  jsSortStrings (en.map Prod.fst)

/-- JS `merged[key] = value` on a plain object literal.  Ordinary assignment
creates an own data property — except for the key `"__proto__"`: there the
assignment invokes the inherited `Object.prototype.__proto__` setter and
creates no own property.  (For a string value that setter is a complete
no-op; for an object or null value it swaps the prototype, which changes no
own property and cannot make a later per-key assignment misbehave, since
every property reachable through the new chain — own data properties of a
parsed JSON object plus `Object.prototype` — is a writable data property or
the same `__proto__` accessor, and each key is assigned once.)  The merged
object's own key/value content, which is what `JSON.stringify` writes back,
therefore never contains `"__proto__"`. -/
def setKey (k : String) (v : Json) (m : List (String × Json)) :
    List (String × Json) :=
  if k == "__proto__" then m else (k, v) :: m

/-- The merge loop of `syncLanguage`, over the sorted source keys: builds
`merged`, `untranslatedKeys` and `missingKeys` in key order.  A key present in
the candidate keeps the candidate's value and counts as untranslated when that
value strictly equals the English value; an absent key is backfilled with the
English value and counts as both missing and untranslated.  `none` models the
`TypeError` thrown by `Object.hasOwn` on a `null` candidate. -/
def syncLoop (en : List (String × String)) (cand : Json) :
    List String → Option (List (String × Json) × List String × List String)
  | [] => some ([], [], [])
  | k :: ks =>
    match hasOwnJson cand k with
    | none => none
    | some hw =>
      match syncLoop en cand ks with
      | none => none
      | some (m, u, miss) =>
        if hw then
          some (setKey k (getJson cand k) m,
            (if jsEqStr (getJson cand k) ((List.lookup k en).getD "") then k :: u else u),
            miss)
        else
          some (setKey k (Json.str ((List.lookup k en).getD "")) m, k :: u, k :: miss)

/-- The per-language statistics returned by `syncLanguage`. -/
structure SyncStats where
  translated : Nat
  untranslated : Nat
  missing : Nat
  completion : ℚ

/-- The outcome of one `syncLanguage` run: the merged mapping that is written
back to the language file, plus the stats object the function returns. -/
structure SyncResult where
  merged : List (String × Json)
  stats : SyncStats

/-- Assembles the sync result from the loop's three accumulators:
`translatedKeys = totalKeys - untranslatedKeys.length` and
`completion = totalKeys > 0 ? Math.round(translated / total * 1000) / 10 : 100`
(`Math.round` is round-half-towards-+∞, which is Mathlib's `round`). -/
def mkSyncResult (total : Nat)
    (t : List (String × Json) × List String × List String) : SyncResult :=
  ⟨t.1, ⟨total - t.2.1.length, t.2.1.length, t.2.2.length,
    if 0 < total then
      ((round (((total - t.2.1.length : Nat) : ℚ) / (total : ℚ) * 1000) : ℤ) : ℚ) / 10
    else 100⟩⟩

/-- `syncLanguage(lang, enContent)` on an already-read candidate value. -/
def syncLanguage (en : List (String × String)) (cand : Json) : Option SyncResult :=
  (syncLoop en cand (sortedKeys en)).map (mkSyncResult (sortedKeys en).length)

/-- The candidate-file situations `syncLanguage` starts from: no file on
disk, a file that does not parse, or a file parsing to some JSON value. -/
inductive CandInput where
  | absent
  | unparseable
  | parsed (j : Json)

/-- Lines 246–255 of the sync script: read or create the language content —
an absent or unparseable file starts fresh as `{}`. -/
def candContent : CandInput → Json
  | .absent => .obj []
  | .unparseable => .obj []
  | .parsed j => j

/-- One full `syncLanguage` run from the on-disk candidate situation. -/
def syncRun (en : List (String × String)) (i : CandInput) : Option SyncResult :=
  syncLanguage en (candContent i)

/-! ### Spec-side definitions (for comparison with the code) -/

/-- A non-printable control character in the claim's sense: Unicode general
category Cc, i.e. U+0000–U+001F and U+007F–U+009F.  This is the claim's
wording, kept separate from the code's `hasControlChars` to compare the two. -/
def isUnicodeControlChar (c : Char) : Bool :=
  decide (c.toNat < 0x20) || (decide (0x7f ≤ c.toNat) && decide (c.toNat ≤ 0x9f))

/-- Pointwise ASCII-case-variance of two character lists: same length, equal
characters up to ASCII letter case at every position. -/
def caseVariantB : List Char → List Char → Bool
  | [], [] => true
  | a :: l1, b :: l2 => charIC a b && caseVariantB l1 l2
  | _, _ => false

/-- `t` is an upper-, lower- or mixed-case variant of `s`. -/
def caseVariant (s t : String) : Prop := caseVariantB s.data t.data = true

/-! ### Derived views of the sync loop (used to state its closed form) -/

/-- The value the merge loop computes for key `k` (candidate value if owned,
else the English backfill).  It is stored in the merged object unless `k` is
`"__proto__"`, whose assignment is swallowed by the inherited setter (see
`setKey`). -/
def mergedVal (en : List (String × String)) (cand : Json) (k : String) : Json :=
  if hasOwnB cand k then getJson cand k else Json.str ((List.lookup k en).getD "")

/-- Whether the merge loop classifies key `k` as untranslated: owned but
strictly equal to the English value, or not owned at all. -/
def untB (en : List (String × String)) (cand : Json) (k : String) : Bool :=
  if hasOwnB cand k then jsEqStr (getJson cand k) ((List.lookup k en).getD "") else true

/-! ## Lemmas: the sort -/

theorem mem_insertSorted {a b : String} {l : List String} :
    b ∈ insertSorted a l ↔ b = a ∨ b ∈ l := by
  induction l with
  | nil => simp [insertSorted]
  | cons c cs ih =>
    simp only [insertSorted]
    split
    · simp
    · simp only [List.mem_cons, ih]
      tauto

theorem mem_jsSortStrings {a : String} {l : List String} :
    a ∈ jsSortStrings l ↔ a ∈ l := by
  induction l with
  | nil => simp [jsSortStrings]
  | cons b bs ih => simp [jsSortStrings, mem_insertSorted, ih]

theorem length_insertSorted (a : String) (l : List String) :
    (insertSorted a l).length = l.length + 1 := by
  induction l with
  | nil => simp [insertSorted]
  | cons c cs ih =>
    simp only [insertSorted]
    split <;> simp [ih]

theorem length_jsSortStrings (l : List String) :
    (jsSortStrings l).length = l.length := by
  induction l with
  | nil => rfl
  | cons b bs ih => simp [jsSortStrings, length_insertSorted, ih]

theorem mem_sortedKeys {en : List (String × String)} {k : String} :
    k ∈ sortedKeys en ↔ k ∈ en.map Prod.fst := by
  simp [sortedKeys, mem_jsSortStrings]

theorem length_sortedKeys (en : List (String × String)) :
    (sortedKeys en).length = (en.map Prod.fst).length :=
  length_jsSortStrings _

/-! ## Lemmas: the sync loop in closed form -/

theorem hasOwnJson_eq {cand : Json} (h : cand ≠ Json.null) (k : String) :
    hasOwnJson cand k = some (hasOwnB cand k) := by
  cases cand with
  | null => exact absurd rfl h
  | bool b => rfl
  | num q => rfl
  | str s => rfl
  | arr elems => rfl
  | obj fields => rfl

theorem syncLoop_eq {en : List (String × String)} {cand : Json}
    (h : cand ≠ Json.null) (ks : List String) :
    syncLoop en cand ks = some
      ((ks.filter fun k => !(k == "__proto__")).map fun k => (k, mergedVal en cand k),
       ks.filter (untB en cand),
       ks.filter fun k => !(hasOwnB cand k)) := by
  induction ks with
  | nil => rfl
  | cons k ks ih =>
    rw [syncLoop, hasOwnJson_eq h, ih]
    by_cases hw : hasOwnB cand k <;>
      by_cases hp : (k == "__proto__") = true <;>
        simp [hw, hp, mergedVal, untB, setKey, List.filter_cons]

theorem syncLoop_null_cons (en : List (String × String)) (k : String)
    (ks : List String) : syncLoop en Json.null (k :: ks) = none := rfl

theorem lookup_map_self {k : String} {ks : List String} (f : String → Json)
    (h : k ∈ ks) :
    List.lookup k (ks.map fun a => (a, f a)) = some (f k) := by
  induction ks with
  | nil => cases h
  | cons a l ih =>
    by_cases hk : k = a
    · subst hk; simp [List.lookup]
    · have hb : (k == a) = false := by simp [hk]
      simp only [List.map, List.lookup, hb]
      exact ih ((List.mem_cons.mp h).resolve_left hk)

theorem syncLanguage_eq {en : List (String × String)} {cand : Json}
    (h : cand ≠ Json.null) :
    syncLanguage en cand = some (mkSyncResult (sortedKeys en).length
      (((sortedKeys en).filter fun k => !(k == "__proto__")).map
          fun k => (k, mergedVal en cand k),
       (sortedKeys en).filter (untB en cand),
       (sortedKeys en).filter fun k => !(hasOwnB cand k))) := by
  rw [syncLanguage, syncLoop_eq h]
  rfl

theorem map_pair_fst (f : String → Json) (ks : List String) :
    ((ks.map fun k => (k, f k)).map Prod.fst) = ks := by
  induction ks with
  | nil => rfl
  | cons a l ih => simp [ih]

theorem map_mergedVal_fst (en : List (String × String)) (cand : Json) :
    (((sortedKeys en).map fun k => (k, mergedVal en cand k)).map Prod.fst)
      = sortedKeys en :=
  map_pair_fst _ _

theorem second_run_hasOwn {en : List (String × String)} (cand : Json)
    {k : String} (hk : k ∈ sortedKeys en) :
    hasOwnB (Json.obj ((sortedKeys en).map fun a => (a, mergedVal en cand a))) k
      = true := by
  rw [hasOwnB, map_mergedVal_fst]
  simp [hk]

theorem second_run_getJson {en : List (String × String)} (cand : Json)
    {k : String} (hk : k ∈ sortedKeys en) :
    getJson (Json.obj ((sortedKeys en).map fun a => (a, mergedVal en cand a))) k
      = mergedVal en cand k := by
  rw [getJson, lookup_map_self _ hk]
  rfl

theorem second_run_mergedVal {en : List (String × String)} (cand : Json)
    {k : String} (hk : k ∈ sortedKeys en) :
    mergedVal en (Json.obj ((sortedKeys en).map fun a => (a, mergedVal en cand a))) k
      = mergedVal en cand k := by
  rw [mergedVal, second_run_getJson cand hk]
  simp [second_run_hasOwn cand hk]

theorem second_run_untB {en : List (String × String)} (cand : Json)
    {k : String} (hk : k ∈ sortedKeys en) :
    untB en (Json.obj ((sortedKeys en).map fun a => (a, mergedVal en cand a))) k
      = untB en cand k := by
  rw [untB, second_run_getJson cand hk]
  simp only [second_run_hasOwn cand hk, if_true]
  rw [untB, mergedVal]
  by_cases hw : hasOwnB cand k
  · simp [hw]
  · simp [hw, jsEqStr]

theorem second_run_triple (en : List (String × String)) (cand : Json) :
    ((sortedKeys en).map fun k =>
        (k, mergedVal en (Json.obj ((sortedKeys en).map fun a => (a, mergedVal en cand a))) k))
      = ((sortedKeys en).map fun k => (k, mergedVal en cand k)) ∧
    ((sortedKeys en).filter
        (untB en (Json.obj ((sortedKeys en).map fun a => (a, mergedVal en cand a)))))
      = (sortedKeys en).filter (untB en cand) ∧
    ((sortedKeys en).filter fun k =>
        !(hasOwnB (Json.obj ((sortedKeys en).map fun a => (a, mergedVal en cand a))) k))
      = [] := by
  refine ⟨List.map_congr_left fun k hk => ?_, List.filter_congr fun k hk => ?_, ?_⟩
  · rw [second_run_mergedVal cand hk]
  · rw [second_run_untB cand hk]
  · rw [List.filter_eq_nil_iff]
    intro k hk
    simp [second_run_hasOwn cand hk]

theorem lookup_mem_keys {k : String} {en : List (String × String)} {v : String}
    (h : List.lookup k en = some v) : k ∈ en.map Prod.fst := by
  induction en with
  | nil => simp [List.lookup] at h
  | cons a l ih =>
    rw [List.lookup] at h
    by_cases hk : (k == a.1) = true
    · simp at hk; simp [hk]
    · simp only [Bool.not_eq_true] at hk
      simp only [hk] at h
      simp [ih h]

/-! ## Claim C1 -/

theorem merged_keys_of_ne_null {en : List (String × String)} {cand : Json}
    {r : SyncResult} (hne : cand ≠ Json.null)
    (h : syncLanguage en cand = some r) (k : String) :
    k ∈ r.merged.map Prod.fst ↔ (k ∈ en.map Prod.fst ∧ k ≠ "__proto__") := by
  rw [syncLanguage_eq hne] at h
  obtain rfl : _ = r := Option.some_inj.mp h
  rw [mkSyncResult]
  simp only [map_pair_fst, List.mem_filter, mem_sortedKeys]
  simp

/-- Counterexample to C1 as stated: with source `{"__proto__": "x"}` the
backfill assignment `merged["__proto__"] = ...` invokes the inherited
`Object.prototype.__proto__` setter and creates no own property, so the
merged mapping is empty while the source has one key — the key sets differ. -/
theorem sync_proto_key_dropped :
    (syncLanguage [("__proto__", "x")] (Json.obj [])).map (fun r => r.merged) =
      some [] ∧
    ("__proto__" : String) ∈
      ([("__proto__", "x")] : List (String × String)).map Prod.fst :=
  ⟨rfl, by decide⟩

/-- C1 (amended): for every source mapping and every candidate value (of any
shape), a key is among the merged mapping's keys iff it is a source key other
than `"__proto__"` — that one key's write is swallowed by the inherited
setter.  In particular the merged key set equals the source key set whenever
the source has no `"__proto__"` key. -/
theorem sync_merged_keys_eq_source_keys (en : List (String × String))
    (cand : Json) (r : SyncResult) (k : String)
    (h : syncLanguage en cand = some r) :
    k ∈ r.merged.map Prod.fst ↔ (k ∈ en.map Prod.fst ∧ k ≠ "__proto__") := by
  cases cand with
  | null =>
    cases hk : sortedKeys en with
    | nil =>
      have hen : en.map Prod.fst = [] := by
        have hl := length_sortedKeys en
        rw [hk] at hl
        exact List.length_eq_zero.mp hl.symm
      rw [syncLanguage, hk] at h
      obtain rfl : _ = r := Option.some_inj.mp h
      rw [mkSyncResult, hen]
      simp
    | cons a l =>
      rw [syncLanguage, hk, syncLoop_null_cons] at h
      exact Option.noConfusion h
  | bool b => exact merged_keys_of_ne_null (fun hh => Json.noConfusion hh) h k
  | num q => exact merged_keys_of_ne_null (fun hh => Json.noConfusion hh) h k
  | str s => exact merged_keys_of_ne_null (fun hh => Json.noConfusion hh) h k
  | arr elems => exact merged_keys_of_ne_null (fun hh => Json.noConfusion hh) h k
  | obj fields => exact merged_keys_of_ne_null (fun hh => Json.noConfusion hh) h k

/-- Witness for C1 (amended) at a concrete run: source `{"a": "x"}`, empty
candidate. -/
theorem sync_merged_keys_eq_source_keys_witness :
    syncLanguage [("a", "x")] (Json.obj []) =
      some (mkSyncResult 1 ([("a", Json.str "x")], ["a"], ["a"])) ∧
    ("a" ∈ (mkSyncResult 1 ([("a", Json.str "x")], ["a"], ["a"])).merged.map Prod.fst ↔
      ("a" ∈ ([("a", "x")] : List (String × String)).map Prod.fst ∧
        ("a" : String) ≠ "__proto__")) :=
  ⟨rfl, sync_merged_keys_eq_source_keys [("a", "x")] (Json.obj [])
    (mkSyncResult 1 ([("a", Json.str "x")], ["a"], ["a"])) "a" rfl⟩

/-! ## Claim C2 -/

/-- Counterexample to C2 as stated: a candidate file parsing to JSON `null`
(perfectly valid JSON) makes the sync run fail — `Object.hasOwn(null, key)`
throws a `TypeError` on the first source key — rather than being treated as
an empty mapping. -/
theorem sync_null_candidate_throws :
    syncRun [("a", "x")] (CandInput.parsed Json.null) = none := rfl

/-- C2 (amended): the synchronizer is total for a well-formed source mapping
and every candidate input except one whose content parses to JSON `null`: an
absent file and unparseable content are treated as the empty mapping, and any
non-null parsed value (object, array, string, number, boolean) yields a
merged mapping and stats.  A candidate parsing to `null` makes the run throw
(when the source has at least one key). -/
theorem sync_total_unless_null (en : List (String × String)) (i : CandInput)
    (h : candContent i ≠ Json.null) :
    (∃ r, syncRun en i = some r) ∧
    syncRun en CandInput.absent = syncRun en (CandInput.parsed (Json.obj [])) ∧
    syncRun en CandInput.unparseable = syncRun en (CandInput.parsed (Json.obj [])) := by
  refine ⟨?_, rfl, rfl⟩
  rw [syncRun, syncLanguage, syncLoop_eq h]
  exact ⟨_, rfl⟩

/-- Witness for C2 (amended) at a concrete run. -/
theorem sync_total_unless_null_witness :
    candContent (CandInput.parsed (Json.obj [])) ≠ Json.null ∧
    (syncRun [("a", "x")] (CandInput.parsed (Json.obj []))).isSome = true :=
  ⟨fun h => Json.noConfusion h, by
    obtain ⟨⟨r, hr⟩, -, -⟩ := sync_total_unless_null [("a", "x")]
      (CandInput.parsed (Json.obj [])) (fun h => Json.noConfusion h)
    rw [hr]
    rfl⟩

/-! ## Claim C3 -/

/-- Counterexample to C3 as stated: the key `"__proto__"` of source
`{"__proto__": "x"}` is absent from the empty candidate and is counted in
both `untranslated` and `missing`, but the backfill write
`merged["__proto__"] = enContent["__proto__"]` hits the inherited setter, so
the merged mapping does not map it to the source value (it has no entry at
all). -/
theorem sync_proto_backfill_swallowed :
    List.lookup ("__proto__") [("__proto__", "x")] = some "x" ∧
    ("__proto__" : String) ∉ ([] : List (String × Json)).map Prod.fst ∧
    (syncLanguage [("__proto__", "x")] (Json.obj [])).map
        (fun r => (List.lookup ("__proto__") r.merged,
          r.stats.untranslated, r.stats.missing)) =
      some (none, 1, 1) :=
  ⟨rfl, by decide, rfl⟩

/-- C3 (amended): a key `k` present in the source (with value `v`) but
absent from the candidate object lands in both the `missingKeys` and the
`untranslatedKeys` accumulator — the returned stats count it in both
`missing` and `untranslated` (the stats are the lengths of those
accumulators, via `mkSyncResult`) — and, unless `k` is the swallowed key
`"__proto__"`, the merged mapping maps `k` to the source value `v`. -/
theorem sync_missing_key_backfilled (en : List (String × String))
    (fs : List (String × Json)) (k : String) (v : String)
    (hlk : List.lookup k en = some v) (habs : k ∉ fs.map Prod.fst) :
    ∃ m u miss,
      syncLoop en (Json.obj fs) (sortedKeys en) = some (m, u, miss) ∧
      syncLanguage en (Json.obj fs) =
        some (mkSyncResult (sortedKeys en).length (m, u, miss)) ∧
      k ∈ u ∧ k ∈ miss ∧
      (k ≠ "__proto__" → List.lookup k m = some (Json.str v)) := by
  have hne : Json.obj fs ≠ Json.null := fun h => Json.noConfusion h
  have hks : k ∈ sortedKeys en := mem_sortedKeys.mpr (lookup_mem_keys hlk)
  have hown : hasOwnB (Json.obj fs) k = false := by
    rw [hasOwnB]
    simp [habs]
  refine ⟨_, _, _, syncLoop_eq hne _, ?_, ?_, ?_, ?_⟩
  · rw [syncLanguage, syncLoop_eq hne]
    rfl
  · refine List.mem_filter.mpr ⟨hks, ?_⟩
    rw [untB, hown]
    simp
  · refine List.mem_filter.mpr ⟨hks, ?_⟩
    rw [hown]
    simp
  · intro hkp
    have hkf : k ∈ (sortedKeys en).filter fun a => !(a == "__proto__") :=
      List.mem_filter.mpr ⟨hks, by simp [hkp]⟩
    rw [lookup_map_self (mergedVal en (Json.obj fs)) hkf, mergedVal, hown]
    simp [hlk]

/-- Witness for C3 (amended) at a concrete run: key `"a"` is in the source
and not in the candidate. -/
theorem sync_missing_key_backfilled_witness :
    List.lookup "a" [("a", "x")] = some "x" ∧
    "a" ∉ ([("b", Json.str "y")] : List (String × Json)).map Prod.fst ∧
    (∃ m u miss,
      syncLoop [("a", "x")] (Json.obj [("b", Json.str "y")]) (sortedKeys [("a", "x")]) =
        some (m, u, miss) ∧
      syncLanguage [("a", "x")] (Json.obj [("b", Json.str "y")]) =
        some (mkSyncResult (sortedKeys [("a", "x")]).length (m, u, miss)) ∧
      "a" ∈ u ∧ "a" ∈ miss ∧
      (("a" : String) ≠ "__proto__" → List.lookup "a" m = some (Json.str "x"))) :=
  ⟨rfl, by decide, sync_missing_key_backfilled [("a", "x")] [("b", Json.str "y")]
    "a" "x" rfl (by decide)⟩

/-! ## Claim C4 -/

/-- Counterexample to C5 as stated (and to an unconditional "`missing` is 0
in the second run"): with source `{"a": "x"}` and an empty candidate the
first run reports `missing = 1` while the second run, on the merged output
the first produced, reports `missing = 0` — the stats are not identical.
And with source `{"__proto__": "x"}` the backfill write is swallowed by the
inherited setter: the merged output is the empty object, so the second run
(on that same empty object — the third equation is both runs at once) again
reports `missing = 1`. -/
theorem sync_second_run_missing_differs :
    (syncLanguage [("a", "x")] (Json.obj [])).map
        (fun r => (r.merged, r.stats.missing)) =
      some ([("a", Json.str "x")], 1) ∧
    (syncLanguage [("a", "x")] (Json.obj [("a", Json.str "x")])).map
        (fun r => (r.merged, r.stats.missing)) =
      some ([("a", Json.str "x")], 0) ∧
    (syncLanguage [("__proto__", "x")] (Json.obj [])).map
        (fun r => (r.merged, r.stats.missing)) =
      some ([], 1) :=
  ⟨rfl, rfl, rfl⟩

theorem filter_proto_of_not_mem {en : List (String × String)}
    (hproto : ("__proto__" : String) ∉ en.map Prod.fst) :
    ((sortedKeys en).filter fun k => !(k == "__proto__")) = sortedKeys en := by
  rw [List.filter_eq_self]
  intro a ha
  have hne : a ≠ "__proto__" := by
    intro hh
    exact hproto (hh ▸ mem_sortedKeys.mp ha)
  simp [hne]

/-- C5 (amended): running the synchronizer a second time on the merged
mapping it produced yields, for a source mapping without the literal key
`"__proto__"`, an identical merged mapping and identical `translated`,
`untranslated` and `completion` stats, with the second run's `missing` stat
equal to 0 (so the full stats objects coincide exactly when the first run
had no missing keys).  With a `"__proto__"` source key the swallowed write
makes the second run re-report that key as missing, see the counterexample. -/
theorem sync_idempotent_except_missing (en : List (String × String))
    (fs : List (String × Json))
    (hproto : ("__proto__" : String) ∉ en.map Prod.fst) :
    ∃ r1 r2, syncLanguage en (Json.obj fs) = some r1 ∧
      syncLanguage en (Json.obj r1.merged) = some r2 ∧
      r2.merged = r1.merged ∧
      r2.stats.translated = r1.stats.translated ∧
      r2.stats.untranslated = r1.stats.untranslated ∧
      r2.stats.completion = r1.stats.completion ∧
      r2.stats.missing = 0 := by
  have hne1 : Json.obj fs ≠ Json.null := fun h => Json.noConfusion h
  have hne2 : Json.obj ((sortedKeys en).map fun a => (a, mergedVal en (Json.obj fs) a)) ≠
      Json.null := fun h => Json.noConfusion h
  have hfilter := filter_proto_of_not_mem hproto
  obtain ⟨hm, hu, hmiss⟩ := second_run_triple en (Json.obj fs)
  have h1 := @syncLanguage_eq en (Json.obj fs) hne1
  rw [hfilter] at h1
  have h2 := @syncLanguage_eq en _ hne2
  rw [hfilter] at h2
  rw [hm, hu, hmiss] at h2
  refine ⟨mkSyncResult (sortedKeys en).length
      ((sortedKeys en).map fun k => (k, mergedVal en (Json.obj fs) k),
       (sortedKeys en).filter (untB en (Json.obj fs)),
       (sortedKeys en).filter fun k => !(hasOwnB (Json.obj fs) k)),
    mkSyncResult (sortedKeys en).length
      ((sortedKeys en).map fun k => (k, mergedVal en (Json.obj fs) k),
       (sortedKeys en).filter (untB en (Json.obj fs)),
       []),
    h1, h2, rfl, rfl, rfl, rfl, rfl⟩

/-- Witness for C5 (amended) at a concrete run whose source has no
`"__proto__"` key. -/
theorem sync_idempotent_except_missing_witness :
    ("__proto__" : String) ∉ ([("a", "x")] : List (String × String)).map Prod.fst ∧
    (∃ r1 r2, syncLanguage [("a", "x")] (Json.obj []) = some r1 ∧
      syncLanguage [("a", "x")] (Json.obj r1.merged) = some r2 ∧
      r2.merged = r1.merged ∧
      r2.stats.translated = r1.stats.translated ∧
      r2.stats.untranslated = r1.stats.untranslated ∧
      r2.stats.completion = r1.stats.completion ∧
      r2.stats.missing = 0) :=
  ⟨by decide, sync_idempotent_except_missing [("a", "x")] [] (by decide)⟩

/-! ## Lemmas: the validator's error list -/

theorem validate_ok_obj {label : String} {en : List (String × String)}
    {fields : List (String × Json)}
    (h1 : (label == "en.json") = false) (h2 : (label == "report.json") = false) :
    validate label en (Except.ok (Json.obj fields)) =
      ⟨(if validLangCode (jsReplaceFirst label (".json")) then [] else [langCodeMsg label]) ++
        (((en.map Prod.fst).filter fun k => !((fields.map Prod.fst).contains k)).map missingKeyMsg) ++
        (((fields.map Prod.fst).filter fun k => !((en.map Prod.fst).contains k)).map unknownKeyMsg) ++
        (fields.map fun p => perKeyErrs en (en.map Prod.fst) p.1 p.2).flatten,
       (fields.map fun p => perKeyWarns en (en.map Prod.fst) p.1 p.2).flatten⟩ := by
  rw [validate, if_neg (by simp [h1]), if_neg (by simp [h2])]

theorem head_missingKeyMsg (k : String) :
    (missingKeyMsg k).data.head? = some 'M' := rfl

theorem head_unknownKeyMsg (k : String) :
    (unknownKeyMsg k).data.head? = some 'U' := rfl

theorem head_langCodeMsg (label : String) :
    (langCodeMsg label).data.head? = some 'F' := rfl

theorem head_typeErrMsg (k t : String) :
    (typeErrMsg k t).data.head? = some '[' := rfl

theorem head_blockedMsg (k lab : String) :
    (blockedMsg k lab).data.head? = some '[' := rfl

theorem head_ctrlMsg (k : String) :
    (ctrlMsg k).data.head? = some '[' := rfl

theorem head_missingPhMsg (k : String) (ps : List String) :
    (missingPhMsg k ps).data.head? = some '[' := rfl

theorem head_extraPhMsg (k : String) (ps : List String) :
    (extraPhMsg k ps).data.head? = some '[' := rfl

theorem head_maxLenMsg (k : String) (n : Nat) :
    (maxLenMsg k n).data.head? = some '[' := rfl

theorem ne_of_head {s t : String} {a b : Char} (hs : s.data.head? = some a)
    (ht : t.data.head? = some b) (hab : a ≠ b) : s ≠ t := by
  intro h
  rw [h, ht] at hs
  exact hab (Option.some_inj.mp hs).symm

theorem missingKeyMsg_inj : Function.Injective missingKeyMsg := by
  intro a b h
  have hd := congrArg String.data h
  rw [missingKeyMsg, missingKeyMsg] at hd
  simp only [String.data_append] at hd
  have h3 := List.append_cancel_left (List.append_cancel_right hd)
  cases a
  cases b
  simp_all

theorem unknownKeyMsg_inj : Function.Injective unknownKeyMsg := by
  intro a b h
  have hd := congrArg String.data h
  rw [unknownKeyMsg, unknownKeyMsg] at hd
  simp only [String.data_append] at hd
  have h3 := List.append_cancel_left (List.append_cancel_right hd)
  cases a
  cases b
  simp_all

theorem perKey_mem_validate_errors {label : String} {en : List (String × String)}
    {fields : List (String × Json)} {k : String} {v : Json} {msg : String}
    (h1 : (label == "en.json") = false) (h2 : (label == "report.json") = false)
    (hmem : (k, v) ∈ fields)
    (hpk : msg ∈ perKeyErrs en (en.map Prod.fst) k v) :
    msg ∈ (validate label en (Except.ok (Json.obj fields))).errors := by
  rw [validate_ok_obj h1 h2]
  simp only [List.mem_append]
  exact Or.inr (List.mem_flatten.mpr ⟨_, List.mem_map.mpr ⟨(k, v), hmem, rfl⟩, hpk⟩)

theorem joinComma_infix {p : String} {l : List String} (h : p ∈ l) :
    ∃ u v : List Char, (joinComma l).data = u ++ p.data ++ v := by
  induction l with
  | nil => cases h
  | cons x xs ih =>
    cases xs with
    | nil =>
      obtain rfl : p = x := by simpa using h
      exact ⟨[], [], by simp [joinComma]⟩
    | cons y ys =>
      rcases List.mem_cons.mp h with rfl | hmem
      · refine ⟨[], (", ").data ++ (joinComma (y :: ys)).data, ?_⟩
        simp [joinComma, String.data_append]
      · obtain ⟨u, v, hu⟩ := ih hmem
        refine ⟨x.data ++ (", ").data ++ u, v, ?_⟩
        simp [joinComma, String.data_append, hu]

theorem missingPhMsg_names {k p : String} {ps : List String} (h : p ∈ ps) :
    ∃ u v : List Char, (missingPhMsg k ps).data = u ++ p.data ++ v := by
  obtain ⟨u, v, hu⟩ := joinComma_infix h
  refine ⟨("[" ++ k ++ "] Missing template placeholder(s): ").data ++ u, v, ?_⟩
  rw [missingPhMsg]
  simp [String.data_append, hu]

theorem extraPhMsg_names {k p : String} {ps : List String} (h : p ∈ ps) :
    ∃ u v : List Char, (extraPhMsg k ps).data = u ++ p.data ++ v := by
  obtain ⟨u, v, hu⟩ := joinComma_infix h
  refine ⟨("[" ++ k ++ "] Extra template placeholder(s) not in English: ").data ++ u, v, ?_⟩
  rw [extraPhMsg]
  simp [String.data_append, hu]

theorem phErrs_missing_mem {k enV s p : String}
    (hp : p ∈ extractPlaceholders enV) (hnot : p ∉ extractPlaceholders s) :
    missingPhMsg k ((extractPlaceholders enV).filter
        fun q => !((extractPlaceholders s).contains q)) ∈ phErrs k enV s := by
  have hpm : p ∈ (extractPlaceholders enV).filter
      (fun q => !((extractPlaceholders s).contains q)) :=
    List.mem_filter.mpr ⟨hp, by simp [hnot]⟩
  have hnil : ((extractPlaceholders enV).filter
      fun q => !((extractPlaceholders s).contains q)) ≠ [] := List.ne_nil_of_mem hpm
  have hne : ((extractPlaceholders enV).filter
      fun q => !((extractPlaceholders s).contains q)).isEmpty = false :=
    Bool.eq_false_iff.mpr fun h => hnil (List.isEmpty_iff.mp h)
  rw [phErrs]
  simp only [hne, Bool.false_eq_true, if_false, List.mem_append]
  exact Or.inl (List.mem_singleton.mpr rfl)

theorem phErrs_extra_mem {k enV s p : String}
    (hp : p ∈ extractPlaceholders s) (hnot : p ∉ extractPlaceholders enV) :
    extraPhMsg k ((extractPlaceholders s).filter
        fun q => !((extractPlaceholders enV).contains q)) ∈ phErrs k enV s := by
  have hpm : p ∈ (extractPlaceholders s).filter
      (fun q => !((extractPlaceholders enV).contains q)) :=
    List.mem_filter.mpr ⟨hp, by simp [hnot]⟩
  have hnil : ((extractPlaceholders s).filter
      fun q => !((extractPlaceholders enV).contains q)) ≠ [] := List.ne_nil_of_mem hpm
  have hne : ((extractPlaceholders s).filter
      fun q => !((extractPlaceholders enV).contains q)).isEmpty = false :=
    Bool.eq_false_iff.mpr fun h => hnil (List.isEmpty_iff.mp h)
  rw [phErrs]
  simp only [hne, Bool.false_eq_true, if_false, List.mem_append]
  exact Or.inr (List.mem_singleton.mpr rfl)

theorem perKeyErrs_str_of_contains {en : List (String × String)}
    {ks : List String} {k s : String} (hcont : (ks.contains k) = true) :
    perKeyErrs en ks k (Json.str s) =
      ((BLOCKED_PATTERNS.filter fun d => d.test s).map fun d => blockedMsg k d.label) ++
      (if hasControlChars s then [ctrlMsg k] else []) ++
      phErrs k ((List.lookup k en).getD "") s ++
      lenErrs k s := by
  rw [perKeyErrs, hcont]
  simp

theorem perKeyErrs_other_of_contains {en : List (String × String)}
    {ks : List String} {k : String} {v : Json} (hcont : (ks.contains k) = true)
    (hv : ∀ s, v ≠ Json.str s) :
    perKeyErrs en ks k v = [typeErrMsg k (jsTypeof v)] := by
  cases v <;>
    first
      | exact absurd rfl (hv _)
      | (rw [perKeyErrs, hcont] <;>
          first
            | rfl
            | (intro s hs; exact Json.noConfusion hs))

theorem perKeyErrs_not_contains {en : List (String × String)}
    {ks : List String} {k : String} {v : Json} (hcont : (ks.contains k) = false) :
    perKeyErrs en ks k v = [] := by
  cases v <;>
    (rw [perKeyErrs, hcont] <;>
      first
        | rfl
        | (intro s hs; exact Json.noConfusion hs))

theorem perKeyErrs_head {en : List (String × String)} {ks : List String}
    {k : String} {v : Json} {msg : String} (h : msg ∈ perKeyErrs en ks k v) :
    msg.data.head? = some '[' := by
  by_cases hg : (ks.contains k) = true
  · cases v with
    | str s =>
      rw [perKeyErrs_str_of_contains hg] at h
      simp only [List.mem_append] at h
      rcases h with ((hb | hc) | hph) | hl
      · obtain ⟨d, -, rfl⟩ := List.mem_map.mp hb
        exact head_blockedMsg k d.label
      · cases hcc : hasControlChars s
        · rw [hcc] at hc
          simp at hc
        · rw [hcc] at hc
          simp at hc
          subst hc
          exact head_ctrlMsg k
      · simp only [phErrs, List.mem_append] at hph
        rcases hph with hm | he
        · split at hm
          · exact absurd hm (List.not_mem_nil _)
          · simp at hm
            subst hm
            exact head_missingPhMsg _ _
        · split at he
          · exact absurd he (List.not_mem_nil _)
          · simp at he
            subst he
            exact head_extraPhMsg _ _
      · rw [lenErrs] at hl
        split at hl
        · simp at hl
          subst hl
          exact head_maxLenMsg _ _
        · exact absurd hl (List.not_mem_nil _)
    | null =>
      rw [perKeyErrs_other_of_contains hg (fun s hs => Json.noConfusion hs)] at h
      simp at h
      subst h
      exact head_typeErrMsg _ _
    | bool b =>
      rw [perKeyErrs_other_of_contains hg (fun s hs => Json.noConfusion hs)] at h
      simp at h
      subst h
      exact head_typeErrMsg _ _
    | num q =>
      rw [perKeyErrs_other_of_contains hg (fun s hs => Json.noConfusion hs)] at h
      simp at h
      subst h
      exact head_typeErrMsg _ _
    | arr elems =>
      rw [perKeyErrs_other_of_contains hg (fun s hs => Json.noConfusion hs)] at h
      simp at h
      subst h
      exact head_typeErrMsg _ _
    | obj fields =>
      rw [perKeyErrs_other_of_contains hg (fun s hs => Json.noConfusion hs)] at h
      simp at h
      subst h
      exact head_typeErrMsg _ _
  · have hg' : (ks.contains k) = false := by
      revert hg
      cases ks.contains k <;> simp
    rw [perKeyErrs_not_contains hg'] at h
    exact absurd h (List.not_mem_nil _)

/-! ## Claim C9 -/

/-- C9: a file whose basename is the reserved source-of-truth name `en.json`
or the reserved generated-report name `report.json` yields exactly one
blocking error and no warnings, and the result does not depend on the source
mapping or on the candidate content — no subsequent check runs. -/
theorem validate_reserved_names_single_error (en : List (String × String))
    (cand : Except String Json) :
    validate "en.json" en cand = ⟨[enJsonErrMsg], []⟩ ∧
    validate "report.json" en cand = ⟨[reportErrMsg], []⟩ :=
  ⟨rfl, rfl⟩

/-! ## Claim C8 -/

theorem count_missing_in_flatten {en : List (String × String)}
    {fields : List (String × Json)} {k : String} :
    ((fields.map fun p => perKeyErrs en (en.map Prod.fst) p.1 p.2).flatten).count
      (missingKeyMsg k) = 0 := by
  rw [List.count_eq_zero]
  intro hmem
  obtain ⟨l, hl, hml⟩ := List.mem_flatten.mp hmem
  obtain ⟨p, -, rfl⟩ := List.mem_map.mp hl
  have hhd := perKeyErrs_head hml
  rw [head_missingKeyMsg] at hhd
  exact absurd (Option.some_inj.mp hhd) (by decide)

theorem count_unknown_in_flatten {en : List (String × String)}
    {fields : List (String × Json)} {k : String} :
    ((fields.map fun p => perKeyErrs en (en.map Prod.fst) p.1 p.2).flatten).count
      (unknownKeyMsg k) = 0 := by
  rw [List.count_eq_zero]
  intro hmem
  obtain ⟨l, hl, hml⟩ := List.mem_flatten.mp hmem
  obtain ⟨p, -, rfl⟩ := List.mem_map.mp hl
  have hhd := perKeyErrs_head hml
  rw [head_unknownKeyMsg] at hhd
  exact absurd (Option.some_inj.mp hhd) (by decide)

/-- C8: after a successful parse and shape check on a non-reserved basename,
every source key absent from the candidate produces exactly one blocking
error naming it (`Missing key: "k"`), and every candidate key absent from
the source produces exactly one blocking error naming it
(`Unknown key not in en.json: "k"`). -/
theorem validate_key_set_errors (label : String) (en : List (String × String))
    (fields : List (String × Json)) (k : String)
    (h1 : label ≠ "en.json") (h2 : label ≠ "report.json")
    (hen : (en.map Prod.fst).Nodup) (hf : (fields.map Prod.fst).Nodup) :
    (k ∈ en.map Prod.fst → k ∉ fields.map Prod.fst →
      ((validate label en (Except.ok (Json.obj fields))).errors.count
        (missingKeyMsg k)) = 1) ∧
    (k ∈ fields.map Prod.fst → k ∉ en.map Prod.fst →
      ((validate label en (Except.ok (Json.obj fields))).errors.count
        (unknownKeyMsg k)) = 1) := by
  have hb1 : (label == "en.json") = false := by simp [h1]
  have hb2 : (label == "report.json") = false := by simp [h2]
  rw [validate_ok_obj hb1 hb2]
  dsimp only
  constructor
  · intro hk habs
    rw [List.count_append, List.count_append, List.count_append]
    have c1 : (if validLangCode (jsReplaceFirst label (".json")) then []
        else [langCodeMsg label]).count (missingKeyMsg k) = 0 := by
      split
      · rfl
      · rw [List.count_eq_zero]
        intro hmem
        exact ne_of_head (head_missingKeyMsg k) (head_langCodeMsg label)
          (by decide) (List.mem_singleton.mp hmem)
    have c2 : (((en.map Prod.fst).filter
        fun a => !((fields.map Prod.fst).contains a)).map missingKeyMsg).count
          (missingKeyMsg k) = 1 := by
      rw [List.count_map_of_injective _ _ missingKeyMsg_inj]
      refine List.count_eq_one_of_mem (hen.filter _) ?_
      exact List.mem_filter.mpr ⟨hk, by simp [habs]⟩
    have c3 : (((fields.map Prod.fst).filter
        fun a => !((en.map Prod.fst).contains a)).map unknownKeyMsg).count
          (missingKeyMsg k) = 0 := by
      rw [List.count_eq_zero]
      intro hmem
      obtain ⟨a, -, ha⟩ := List.mem_map.mp hmem
      exact ne_of_head (head_unknownKeyMsg a) (head_missingKeyMsg k) (by decide) ha
    rw [c1, c2, c3, count_missing_in_flatten]
  · intro hk habs
    rw [List.count_append, List.count_append, List.count_append]
    have c1 : (if validLangCode (jsReplaceFirst label (".json")) then []
        else [langCodeMsg label]).count (unknownKeyMsg k) = 0 := by
      split
      · rfl
      · rw [List.count_eq_zero]
        intro hmem
        exact ne_of_head (head_unknownKeyMsg k) (head_langCodeMsg label)
          (by decide) (List.mem_singleton.mp hmem)
    have c2 : (((en.map Prod.fst).filter
        fun a => !((fields.map Prod.fst).contains a)).map missingKeyMsg).count
          (unknownKeyMsg k) = 0 := by
      rw [List.count_eq_zero]
      intro hmem
      obtain ⟨a, -, ha⟩ := List.mem_map.mp hmem
      exact ne_of_head (head_missingKeyMsg a) (head_unknownKeyMsg k) (by decide) ha
    have c3 : (((fields.map Prod.fst).filter
        fun a => !((en.map Prod.fst).contains a)).map unknownKeyMsg).count
          (unknownKeyMsg k) = 1 := by
      rw [List.count_map_of_injective _ _ unknownKeyMsg_inj]
      refine List.count_eq_one_of_mem (hf.filter _) ?_
      exact List.mem_filter.mpr ⟨hk, by simp [habs]⟩
    rw [c1, c2, c3, count_unknown_in_flatten]

/-- Witness for C8 at a concrete run: source key `"a"` missing from the
candidate, candidate key `"b"` unknown to the source. -/
theorem validate_key_set_errors_witness :
    ("de.json" : String) ≠ "en.json" ∧
    (([("a", "x")] : List (String × String)).map Prod.fst).Nodup ∧
    ((("a" : String) ∈ ([("a", "x")] : List (String × String)).map Prod.fst →
        "a" ∉ ([("b", Json.str "y")] : List (String × Json)).map Prod.fst →
        ((validate "de.json" [("a", "x")]
          (Except.ok (Json.obj [("b", Json.str "y")]))).errors.count
            (missingKeyMsg "a")) = 1) ∧
      (("a" : String) ∈ ([("b", Json.str "y")] : List (String × Json)).map Prod.fst →
        "a" ∉ ([("a", "x")] : List (String × String)).map Prod.fst →
        ((validate "de.json" [("a", "x")]
          (Except.ok (Json.obj [("b", Json.str "y")]))).errors.count
            (unknownKeyMsg "a")) = 1)) :=
  ⟨by decide, by decide,
    validate_key_set_errors "de.json" [("a", "x")] [("b", Json.str "y")] "a"
      (by decide) (by decide) (by decide) (by decide)⟩

/-! ## Claim C7 -/

/-- Counterexample to C7 as stated: U+0085 (NEL) is a non-printable control
character (Unicode general category Cc) other than tab, newline and carriage
return, yet a candidate value consisting of it passes the validator with no
error at all — the scan covers only U+0000–U+001F and U+007F. -/
theorem validate_c1_control_not_flagged :
    isUnicodeControlChar '\u0085' = true ∧
    '\u0085'.toNat ≠ 9 ∧ '\u0085'.toNat ≠ 10 ∧ '\u0085'.toNat ≠ 13 ∧
    '\u0085' ∈ ("\u0085" : String).data ∧
    (validate "de.json" [("a", "x")]
      (Except.ok (Json.obj [("a", Json.str "\u0085")]))).errors = [] :=
  ⟨by decide, by decide, by decide, by decide, by decide, by decide⟩

/-- C7 (amended): if a candidate value for a key present in both mappings
contains any character in U+0000–U+001F other than tab (U+0009), newline
(U+000A) and carriage return (U+000D), or the character U+007F, the validator
emits the blocking control-character error for that key.  (C1 control
characters U+0080–U+009F are not flagged, see the counterexample.) -/
theorem validate_control_char_error (label : String)
    (en : List (String × String)) (fields : List (String × Json))
    (k s : String) (c : Char)
    (h1 : label ≠ "en.json") (h2 : label ≠ "report.json")
    (hmem : (k, Json.str s) ∈ fields) (hk : k ∈ en.map Prod.fst)
    (hc : c ∈ s.data) (hrange : c.toNat < 0x20 ∨ c.toNat = 0x7f)
    (h9 : c.toNat ≠ 9) (h10 : c.toNat ≠ 10) (h13 : c.toNat ≠ 13) :
    ctrlMsg k ∈ (validate label en (Except.ok (Json.obj fields))).errors := by
  have hb1 : (label == "en.json") = false := by simp [h1]
  have hb2 : (label == "report.json") = false := by simp [h2]
  have hcont : ((en.map Prod.fst).contains k) = true := by simp [hk]
  have hctl : hasControlChars s = true := by
    rw [hasControlChars]
    refine List.any_eq_true.mpr ⟨c, hc, ?_⟩
    simp only [Bool.or_eq_true, Bool.and_eq_true, decide_eq_true_eq, beq_iff_eq]
    omega
  refine perKey_mem_validate_errors hb1 hb2 hmem ?_
  rw [perKeyErrs_str_of_contains hcont, hctl]
  simp

/-- Witness for C7 (amended) at a concrete run: the value contains U+0001. -/
theorem validate_control_char_error_witness :
    (('\u0001' : Char) ∈ ("a\u0001b" : String).data ∧
      ('\u0001' : Char).toNat < 0x20 ∧
      ('\u0001' : Char).toNat ≠ 9 ∧ ('\u0001' : Char).toNat ≠ 10 ∧
      ('\u0001' : Char).toNat ≠ 13) ∧
    ctrlMsg "a" ∈ (validate "de.json" [("a", "x")]
      (Except.ok (Json.obj [("a", Json.str "a\u0001b")]))).errors :=
  ⟨by decide,
    validate_control_char_error "de.json" [("a", "x")]
      [("a", Json.str "a\u0001b")] "a" "a\u0001b" '\u0001'
      (by decide) (by decide) (List.mem_singleton.mpr rfl) (by decide)
      (by decide) (Or.inl (by decide)) (by decide) (by decide) (by decide)⟩

/-! ## Claim C6 -/

/-- C6: for a key present in both mappings whose candidate value is a string,
every `\{\{...\}\}` placeholder extracted from the source value but not from
the candidate value is named inside a blocking error message, and every
placeholder extracted from the candidate value but not from the source value
is named inside a blocking error message.  Both conditions are pure
membership in the extracted lists, so the comparison is order- and
multiplicity-insensitive. -/
theorem validate_placeholder_diff_errors (label : String)
    (en : List (String × String)) (fields : List (String × Json))
    (k s enV p : String)
    (h1 : label ≠ "en.json") (h2 : label ≠ "report.json")
    (hmem : (k, Json.str s) ∈ fields)
    (hlk : List.lookup k en = some enV) :
    (p ∈ extractPlaceholders enV → p ∉ extractPlaceholders s →
      ∃ msg ∈ (validate label en (Except.ok (Json.obj fields))).errors,
        ∃ u v : List Char, msg.data = u ++ p.data ++ v) ∧
    (p ∈ extractPlaceholders s → p ∉ extractPlaceholders enV →
      ∃ msg ∈ (validate label en (Except.ok (Json.obj fields))).errors,
        ∃ u v : List Char, msg.data = u ++ p.data ++ v) := by
  have hb1 : (label == "en.json") = false := by simp [h1]
  have hb2 : (label == "report.json") = false := by simp [h2]
  have hcont : ((en.map Prod.fst).contains k) = true := by
    simp [lookup_mem_keys hlk]
  constructor
  · intro hp hnot
    refine ⟨missingPhMsg k ((extractPlaceholders enV).filter
        fun q => !((extractPlaceholders s).contains q)), ?_, ?_⟩
    · refine perKey_mem_validate_errors hb1 hb2 hmem ?_
      rw [perKeyErrs_str_of_contains hcont, hlk]
      simp only [List.mem_append, Option.getD_some]
      exact Or.inl (Or.inr (phErrs_missing_mem hp hnot))
    · exact missingPhMsg_names (List.mem_filter.mpr ⟨hp, by simp [hnot]⟩)
  · intro hp hnot
    refine ⟨extraPhMsg k ((extractPlaceholders s).filter
        fun q => !((extractPlaceholders enV).contains q)), ?_, ?_⟩
    · refine perKey_mem_validate_errors hb1 hb2 hmem ?_
      rw [perKeyErrs_str_of_contains hcont, hlk]
      simp only [List.mem_append, Option.getD_some]
      exact Or.inl (Or.inr (phErrs_extra_mem hp hnot))
    · exact extraPhMsg_names (List.mem_filter.mpr ⟨hp, by simp [hnot]⟩)

/-- Witness for C6 at a concrete run: source value `"Hello \{\{name\}\}"`,
candidate value `"Bonjour"` drops the placeholder `\{\{name\}\}`. -/
theorem validate_placeholder_diff_errors_witness :
    ("{{name}}" : String) ∈ extractPlaceholders ("Hello {{name}}") ∧
    ("{{name}}" : String) ∉ extractPlaceholders ("Bonjour") ∧
    ((("{{name}}" : String) ∈ extractPlaceholders ("Hello {{name}}") →
        ("{{name}}" : String) ∉ extractPlaceholders ("Bonjour") →
        ∃ msg ∈ (validate "fr.json" [("a", "Hello {{name}}")]
            (Except.ok (Json.obj [("a", Json.str "Bonjour")]))).errors,
          ∃ u v : List Char, msg.data = u ++ ("{{name}}" : String).data ++ v) ∧
      (("{{name}}" : String) ∈ extractPlaceholders ("Bonjour") →
        ("{{name}}" : String) ∉ extractPlaceholders ("Hello {{name}}") →
        ∃ msg ∈ (validate "fr.json" [("a", "Hello {{name}}")]
            (Except.ok (Json.obj [("a", Json.str "Bonjour")]))).errors,
          ∃ u v : List Char, msg.data = u ++ ("{{name}}" : String).data ++ v)) :=
  ⟨by decide, by decide,
    validate_placeholder_diff_errors "fr.json" [("a", "Hello {{name}}")]
      [("a", Json.str "Bonjour")] "a" "Bonjour" "Hello {{name}}" "{{name}}"
      (by decide) (by decide) (List.mem_singleton.mpr rfl) rfl⟩

/-! ## Claim C10: case-insensitivity of the blocked-content detectors -/

theorem toNat_ofNat_small {n : Nat} (h : n < 0xd800) :
    (Char.ofNat n).toNat = n := by
  have hv : n.isValidChar := Or.inl h
  rw [Char.ofNat, dif_pos hv, Char.ofNatAux, Char.toNat]
  exact BitVec.toNat_ofNatLt _ _

theorem char_toNat_inj {a b : Char} (h : a.toNat = b.toNat) : a = b :=
  Char.ext (UInt32.ext h)

theorem asciiLower_toNat (c : Char) :
    (asciiLower c).toNat =
      if 65 ≤ c.toNat ∧ c.toNat ≤ 90 then c.toNat + 32 else c.toNat := by
  rw [asciiLower]
  by_cases h : 65 ≤ c.toNat ∧ c.toNat ≤ 90
  · rw [if_pos h, if_pos (by simp [h.1, h.2])]
    exact toNat_ofNat_small (by omega)
  · rw [if_neg h, if_neg (by simpa using h)]

theorem charIC_asciiLower {a b : Char} (h : charIC a b = true) :
    asciiLower a = asciiLower b := by
  simpa [charIC] using h

theorem charIC_symm (a b : Char) : charIC a b = charIC b a := by
  rw [charIC, charIC, Bool.eq_iff_iff, beq_iff_eq, beq_iff_eq]
  exact eq_comm

theorem charIC_congr {p a b : Char} (h : charIC a b = true) :
    charIC p a = charIC p b := by
  rw [charIC, charIC, charIC_asciiLower h]

theorem charIC_cases {a b : Char} (h : charIC a b = true) :
    a = b ∨ (65 ≤ a.toNat ∧ a.toNat ≤ 90 ∧ b.toNat = a.toNat + 32) ∨
      (65 ≤ b.toNat ∧ b.toNat ≤ 90 ∧ a.toNat = b.toNat + 32) := by
  have hl := congrArg Char.toNat (charIC_asciiLower h)
  rw [asciiLower_toNat, asciiLower_toNat] at hl
  by_cases h1 : 65 ≤ a.toNat ∧ a.toNat ≤ 90 <;>
    by_cases h2 : 65 ≤ b.toNat ∧ b.toNat ≤ 90
  · rw [if_pos h1, if_pos h2] at hl
    exact Or.inl (char_toNat_inj (by omega))
  · rw [if_pos h1, if_neg h2] at hl
    exact Or.inr (Or.inl ⟨h1.1, h1.2, by omega⟩)
  · rw [if_neg h1, if_pos h2] at hl
    exact Or.inr (Or.inr ⟨h2.1, h2.2, by omega⟩)
  · rw [if_neg h1, if_neg h2] at hl
    exact Or.inl (char_toNat_inj hl)

theorem charIC_nat_class {a b : Char} (h : charIC a b = true) (P : Nat → Prop)
    (hP : ∀ n, 65 ≤ n → n ≤ 90 → (P n ↔ P (n + 32))) :
    P a.toNat ↔ P b.toNat := by
  rcases charIC_cases h with rfl | ⟨h1, h2, h3⟩ | ⟨h1, h2, h3⟩
  · exact Iff.rfl
  · rw [h3]
    exact hP _ h1 h2
  · rw [h3]
    exact (hP _ h1 h2).symm

theorem charIC_eq_of_nonletter {a b x : Char} (h : charIC a b = true)
    (hx : x.toNat < 65 ∨ (90 < x.toNat ∧ x.toNat < 97) ∨ 122 < x.toNat) :
    (a == x) = (b == x) := by
  rw [Bool.eq_iff_iff, beq_iff_eq, beq_iff_eq]
  constructor
  · rintro rfl
    rcases charIC_cases h with rfl | ⟨h1, h2, h3⟩ | ⟨h1, h2, h3⟩
    · rfl
    · exact absurd h1 (by omega)
    · exact absurd h3 (by omega)
  · rintro rfl
    rcases charIC_cases h with rfl | ⟨h1, h2, h3⟩ | ⟨h1, h2, h3⟩
    · rfl
    · exact absurd h3 (by omega)
    · exact absurd h1 (by omega)

theorem isAsciiLetter_iff {c : Char} : isAsciiLetter c = true ↔
    (97 ≤ c.toNat ∧ c.toNat ≤ 122) ∨ (65 ≤ c.toNat ∧ c.toNat ≤ 90) := by
  rw [isAsciiLetter]
  simp

theorem isAsciiLetter_charIC {a b : Char} (h : charIC a b = true) :
    isAsciiLetter a = isAsciiLetter b := by
  rw [Bool.eq_iff_iff, isAsciiLetter_iff, isAsciiLetter_iff]
  exact charIC_nat_class h
    (fun n => (97 ≤ n ∧ n ≤ 122) ∨ (65 ≤ n ∧ n ≤ 90))
    (fun n h1 h2 => by omega)

theorem jsWhite_iff {c : Char} : jsWhite c = true ↔
    (c.toNat = 9 ∨ c.toNat = 10 ∨ c.toNat = 11 ∨ c.toNat = 12 ∨ c.toNat = 13 ∨
     c.toNat = 32 ∨ c.toNat = 0xa0 ∨ c.toNat = 0x1680 ∨
     (0x2000 ≤ c.toNat ∧ c.toNat ≤ 0x200a) ∨ c.toNat = 0x2028 ∨
     c.toNat = 0x2029 ∨ c.toNat = 0x202f ∨ c.toNat = 0x205f ∨
     c.toNat = 0x3000 ∨ c.toNat = 0xfeff) := by
  rw [jsWhite]
  simp only [Bool.or_eq_true, Bool.and_eq_true, decide_eq_true_eq, beq_iff_eq]
  tauto

theorem jsWhite_charIC {a b : Char} (h : charIC a b = true) :
    jsWhite a = jsWhite b := by
  rw [Bool.eq_iff_iff, jsWhite_iff, jsWhite_iff]
  exact charIC_nat_class h
    (fun n => n = 9 ∨ n = 10 ∨ n = 11 ∨ n = 12 ∨ n = 13 ∨
      n = 32 ∨ n = 0xa0 ∨ n = 0x1680 ∨ (0x2000 ≤ n ∧ n ≤ 0x200a) ∨
      n = 0x2028 ∨ n = 0x2029 ∨ n = 0x202f ∨ n = 0x205f ∨
      n = 0x3000 ∨ n = 0xfeff)
    (fun n h1 h2 => by omega)

theorem isHexIC_iff {c : Char} : isHexIC c = true ↔
    (48 ≤ c.toNat ∧ c.toNat ≤ 57) ∨ (97 ≤ c.toNat ∧ c.toNat ≤ 102) ∨
    (65 ≤ c.toNat ∧ c.toNat ≤ 70) := by
  rw [isHexIC]
  simp only [Bool.or_eq_true, Bool.and_eq_true, decide_eq_true_eq, asciiLower_toNat]
  by_cases h : 65 ≤ c.toNat ∧ c.toNat ≤ 90
  · rw [if_pos h]
    omega
  · rw [if_neg h]
    omega

theorem isHexIC_charIC {a b : Char} (h : charIC a b = true) :
    isHexIC a = isHexIC b := by
  rw [Bool.eq_iff_iff, isHexIC_iff, isHexIC_iff]
  exact charIC_nat_class h
    (fun n => (48 ≤ n ∧ n ≤ 57) ∨ (97 ≤ n ∧ n ≤ 102) ∨ (65 ≤ n ∧ n ≤ 70))
    (fun n h1 h2 => by omega)

theorem caseVariantB_nil {l2 : List Char} (h : caseVariantB [] l2 = true) :
    l2 = [] := by
  cases l2 with
  | nil => rfl
  | cons b bs => simp [caseVariantB] at h

theorem caseVariantB_cons {a : Char} {l1 l2 : List Char}
    (h : caseVariantB (a :: l1) l2 = true) :
    ∃ b bs, l2 = b :: bs ∧ charIC a b = true ∧ caseVariantB l1 bs = true := by
  cases l2 with
  | nil => simp [caseVariantB] at h
  | cons b bs =>
    rw [caseVariantB, Bool.and_eq_true] at h
    exact ⟨b, bs, rfl, h.1, h.2⟩

theorem startsIC_invar (pat : List Char) :
    ∀ l1 l2, caseVariantB l1 l2 = true → startsIC pat l1 = startsIC pat l2 := by
  induction pat with
  | nil => intro l1 l2 h; rfl
  | cons p ps ih =>
    intro l1 l2 h
    cases l1 with
    | nil =>
      obtain rfl := caseVariantB_nil h
      rfl
    | cons a as1 =>
      obtain ⟨b, bs, rfl, hab, hrest⟩ := caseVariantB_cons h
      rw [startsIC, startsIC, charIC_congr hab, ih as1 bs hrest]

theorem dropIC_invar (pat : List Char) :
    ∀ l1 l2, caseVariantB l1 l2 = true →
      (dropIC pat l1 = none ∧ dropIC pat l2 = none) ∨
      (∃ r1 r2, dropIC pat l1 = some r1 ∧ dropIC pat l2 = some r2 ∧
        caseVariantB r1 r2 = true) := by
  induction pat with
  | nil => intro l1 l2 h; exact Or.inr ⟨l1, l2, rfl, rfl, h⟩
  | cons p ps ih =>
    intro l1 l2 h
    cases l1 with
    | nil =>
      obtain rfl := caseVariantB_nil h
      exact Or.inl ⟨rfl, rfl⟩
    | cons a as1 =>
      obtain ⟨b, bs, rfl, hab, hrest⟩ := caseVariantB_cons h
      rw [dropIC, dropIC]
      by_cases hpa : charIC p a = true
      · rw [if_pos hpa, if_pos (by rw [← charIC_congr hab]; exact hpa)]
        exact ih as1 bs hrest
      · rw [if_neg hpa, if_neg (by rw [← charIC_congr hab]; exact hpa)]
        exact Or.inl ⟨rfl, rfl⟩

theorem skipWs_invar :
    ∀ l1 l2, caseVariantB l1 l2 = true →
      caseVariantB (skipWs l1) (skipWs l2) = true := by
  intro l1
  induction l1 with
  | nil =>
    intro l2 h
    obtain rfl := caseVariantB_nil h
    exact h
  | cons a as1 ih =>
    intro l2 h
    obtain ⟨b, bs, rfl, hab, hrest⟩ := caseVariantB_cons h
    rw [skipWs, skipWs]
    have hw := jsWhite_charIC hab
    by_cases hwa : jsWhite a = true
    · rw [if_pos hwa, if_pos (by rw [← hw]; exact hwa)]
      exact ih bs hrest
    · rw [if_neg hwa, if_neg (by rw [← hw]; exact hwa)]
      exact h

theorem letterRun_invar :
    ∀ l1 l2, caseVariantB l1 l2 = true →
      (letterRun l1).1 = (letterRun l2).1 ∧
      caseVariantB (letterRun l1).2 (letterRun l2).2 = true := by
  intro l1
  induction l1 with
  | nil =>
    intro l2 h
    obtain rfl := caseVariantB_nil h
    exact ⟨rfl, h⟩
  | cons a as1 ih =>
    intro l2 h
    obtain ⟨b, bs, rfl, hab, hrest⟩ := caseVariantB_cons h
    rw [letterRun, letterRun]
    have hl := isAsciiLetter_charIC hab
    by_cases hla : isAsciiLetter a = true
    · rw [if_pos hla, if_pos (by rw [← hl]; exact hla)]
      obtain ⟨ha, hb⟩ := ih bs hrest
      exact ⟨by rw [ha], hb⟩
    · rw [if_neg hla, if_neg (by rw [← hl]; exact hla)]
      exact ⟨rfl, h⟩

theorem anySuffix_invar {f : List Char → Bool}
    (hf : ∀ l1 l2, caseVariantB l1 l2 = true → f l1 = f l2) :
    ∀ l1 l2, caseVariantB l1 l2 = true → anySuffix f l1 = anySuffix f l2 := by
  intro l1
  induction l1 with
  | nil =>
    intro l2 h
    obtain rfl := caseVariantB_nil h
    rfl
  | cons a as1 ih =>
    intro l2 h
    obtain ⟨b, bs, rfl, hab, hrest⟩ := caseVariantB_cons h
    rw [anySuffix, anySuffix, hf _ _ h, ih bs hrest]

theorem jsUriAt_invar :
    ∀ l1 l2, caseVariantB l1 l2 = true → jsUriAt l1 = jsUriAt l2 := by
  intro l1 l2 h
  rw [jsUriAt, jsUriAt]
  rcases dropIC_invar ("javascript".data) l1 l2 h with ⟨hn1, hn2⟩ |
    ⟨r1, r2, hs1, hs2, hr⟩
  · rw [hn1, hn2]
  · rw [hs1, hs2]
    dsimp only
    have hsk := skipWs_invar r1 r2 hr
    cases hh1 : skipWs r1 with
    | nil =>
      rw [hh1] at hsk
      rw [caseVariantB_nil hsk]
    | cons c cs =>
      rw [hh1] at hsk
      obtain ⟨d, ds, hds, hcd, -⟩ := caseVariantB_cons hsk
      rw [hds]
      exact charIC_eq_of_nonletter hcd (by decide)

theorem eventHandlerAt_invar :
    ∀ l1 l2, caseVariantB l1 l2 = true →
      eventHandlerAt l1 = eventHandlerAt l2 := by
  intro l1 l2 h
  rw [eventHandlerAt, eventHandlerAt]
  rcases dropIC_invar ("on".data) l1 l2 h with ⟨hn1, hn2⟩ |
    ⟨r1, r2, hs1, hs2, hr⟩
  · rw [hn1, hn2]
  · rw [hs1, hs2]
    dsimp only
    obtain ⟨hlen, hltail⟩ := letterRun_invar r1 r2 hr
    rw [hlen]
    have hsk := skipWs_invar _ _ hltail
    cases hh1 : skipWs (letterRun r1).2 with
    | nil =>
      rw [hh1] at hsk
      rw [caseVariantB_nil hsk]
    | cons c cs =>
      rw [hh1] at hsk
      obtain ⟨d, ds, hds, hcd, -⟩ := caseVariantB_cons hsk
      rw [hds]
      dsimp only
      rw [charIC_eq_of_nonletter hcd (by decide)]

theorem imgTail_invar :
    ∀ l1 l2, caseVariantB l1 l2 = true → imgTail l1 = imgTail l2 := by
  intro l1
  induction l1 with
  | nil =>
    intro l2 h
    rw [caseVariantB_nil h]
  | cons a as1 ih =>
    intro l2 h
    obtain ⟨b, bs, rfl, hab, hrest⟩ := caseVariantB_cons h
    rw [imgTail, imgTail, charIC_eq_of_nonletter hab (by decide),
      startsIC_invar ("onerror".data) as1 bs hrest, ih bs hrest]

theorem imgAt_invar :
    ∀ l1 l2, caseVariantB l1 l2 = true → imgAt l1 = imgAt l2 := by
  intro l1 l2 h
  rw [imgAt, imgAt]
  rcases dropIC_invar ("<img".data) l1 l2 h with ⟨hn1, hn2⟩ |
    ⟨r1, r2, hs1, hs2, hr⟩
  · rw [hn1, hn2]
  · rw [hs1, hs2]
    exact imgTail_invar r1 r2 hr

theorem dataTail_invar :
    ∀ l1 l2, caseVariantB l1 l2 = true → dataTail l1 = dataTail l2 := by
  intro l1
  induction l1 with
  | nil =>
    intro l2 h
    rw [caseVariantB_nil h]
  | cons a as1 ih =>
    intro l2 h
    obtain ⟨b, bs, rfl, hab, hrest⟩ := caseVariantB_cons h
    rw [dataTail, dataTail, startsIC_invar ("base64".data) _ _ h,
      charIC_eq_of_nonletter hab (by decide), ih bs hrest]

theorem dataAt_invar :
    ∀ l1 l2, caseVariantB l1 l2 = true → dataAt l1 = dataAt l2 := by
  intro l1 l2 h
  rw [dataAt, dataAt]
  rcases dropIC_invar ("data:".data) l1 l2 h with ⟨hn1, hn2⟩ |
    ⟨r1, r2, hs1, hs2, hr⟩
  · rw [hn1, hn2]
  · rw [hs1, hs2]
    exact dataTail_invar r1 r2 hr

theorem restHex_invar :
    ∀ l1 l2, caseVariantB l1 l2 = true → restHex l1 = restHex l2 := by
  intro l1
  induction l1 with
  | nil =>
    intro l2 h
    rw [caseVariantB_nil h]
  | cons a as1 ih =>
    intro l2 h
    obtain ⟨b, bs, rfl, hab, hrest⟩ := caseVariantB_cons h
    rw [restHex, restHex]
    have hx := isHexIC_charIC hab
    by_cases hxa : isHexIC a = true
    · rw [if_pos hxa, if_pos (by rw [← hx]; exact hxa)]
      exact ih bs hrest
    · rw [if_neg hxa, if_neg (by rw [← hx]; exact hxa)]
      exact charIC_eq_of_nonletter hab (by decide)

theorem hexThenSemi_invar :
    ∀ l1 l2, caseVariantB l1 l2 = true → hexThenSemi l1 = hexThenSemi l2 := by
  intro l1 l2 h
  cases l1 with
  | nil =>
    rw [caseVariantB_nil h]
  | cons a as1 =>
    obtain ⟨b, bs, rfl, hab, hrest⟩ := caseVariantB_cons h
    rw [hexThenSemi, hexThenSemi, isHexIC_charIC hab, restHex_invar as1 bs hrest]

theorem entityAt_cons_cons (a b2 : Char) (r : List Char) :
    entityAt (a :: b2 :: r) =
      (a == '&' && b2 == '#' &&
        ((match r with
          | c :: r2 => charIC 'x' c && hexThenSemi r2
          | [] => false) || hexThenSemi r)) := rfl

theorem entityAt_invar :
    ∀ l1 l2, caseVariantB l1 l2 = true → entityAt l1 = entityAt l2 := by
  intro l1 l2 h
  cases l1 with
  | nil =>
    rw [caseVariantB_nil h]
  | cons a as1 =>
    obtain ⟨b, bs, rfl, hab, hrest⟩ := caseVariantB_cons h
    cases as1 with
    | nil =>
      obtain rfl := caseVariantB_nil hrest
      rfl
    | cons a2 as2 =>
      obtain ⟨b2, bs2, rfl, hab2, hrest2⟩ := caseVariantB_cons hrest
      rw [entityAt_cons_cons, entityAt_cons_cons,
        charIC_eq_of_nonletter hab (by decide),
        charIC_eq_of_nonletter hab2 (by decide), hexThenSemi_invar as2 bs2 hrest2]
      cases as2 with
      | nil =>
        obtain rfl := caseVariantB_nil hrest2
        rfl
      | cons c cs =>
        obtain ⟨d, ds, rfl, hcd, hrest3⟩ := caseVariantB_cons hrest2
        dsimp only
        rw [charIC_congr hcd, hexThenSemi_invar cs ds hrest3]

theorem rtlAny_invar :
    ∀ l1 l2, caseVariantB l1 l2 = true →
      (l1.any fun c => c == rtlChar) = (l2.any fun c => c == rtlChar) := by
  intro l1
  induction l1 with
  | nil =>
    intro l2 h
    rw [caseVariantB_nil h]
  | cons a as1 ih =>
    intro l2 h
    obtain ⟨b, bs, rfl, hab, hrest⟩ := caseVariantB_cons h
    rw [List.any_cons, List.any_cons, ih bs hrest]
    have hrtl : rtlChar.toNat < 65 ∨ (90 < rtlChar.toNat ∧ rtlChar.toNat < 97) ∨
        122 < rtlChar.toNat := by
      rw [rtlChar, toNat_ofNat_small (by omega)]
      omega
    rw [charIC_eq_of_nonletter hab hrtl]

/-- C10: every blocked-content detector is case-insensitive: replacing the
tested value by any upper-, lower- or mixed-case ASCII variant leaves every
detector's verdict unchanged, hence the set of triggered detectors (and so
the emitted blocking errors) is the same. -/
theorem blocked_patterns_case_insensitive (s t : String) (h : caseVariant s t) :
    (∀ d ∈ BLOCKED_PATTERNS, d.test s = d.test t) ∧
    BLOCKED_PATTERNS.filter (fun d => d.test s) =
      BLOCKED_PATTERNS.filter (fun d => d.test t) := by
  rw [caseVariant] at h
  have hall : ∀ d ∈ BLOCKED_PATTERNS, d.test s = d.test t := by
    intro d hd
    fin_cases hd
    · exact anySuffix_invar (startsIC_invar _) _ _ h
    · exact anySuffix_invar (startsIC_invar _) _ _ h
    · exact anySuffix_invar jsUriAt_invar _ _ h
    · exact anySuffix_invar eventHandlerAt_invar _ _ h
    · exact anySuffix_invar (startsIC_invar _) _ _ h
    · exact anySuffix_invar imgAt_invar _ _ h
    · exact anySuffix_invar dataAt_invar _ _ h
    · exact anySuffix_invar entityAt_invar _ _ h
    · exact rtlAny_invar _ _ h
  exact ⟨hall, List.filter_congr fun d hd => hall d hd⟩

/-- Witness for C10: `"<SCRIPT"` is a case variant of `"<script"` and
triggers the same detectors. -/
theorem blocked_patterns_case_insensitive_witness :
    caseVariant ("<SCRIPT") ("<script") ∧
    BLOCKED_PATTERNS.filter (fun d => d.test ("<SCRIPT")) =
      BLOCKED_PATTERNS.filter (fun d => d.test ("<script")) :=
  ⟨by unfold caseVariant; decide,
    (blocked_patterns_case_insensitive ("<SCRIPT") ("<script")
      (by unfold caseVariant; decide)).2⟩

end I18n
